import Mathlib

/-!
Verification of the jury1 sandboxed execution engine.

This file gives a shallow embedding, in Lean 4, of the pure core of the
jury1 remote code-execution service (a NestJS/TypeScript code base) and
proves properties of that embedding.  Strings manipulated by the service
are modelled as `List Char`; JavaScript numbers that only ever hold
integral byte counts are modelled as `Nat` (wrapped in `Option` where the
source can produce `NaN`); fractional scores are modelled as `ℚ`;
functions that `throw` are modelled with `Except`.  Effectful runner
skeletons (directory creation, container lifecycle, cleanup) are modelled
as functions from an environment of step outcomes to the trace of steps
the runner performs.
-/

namespace Jury1

/-! ## IoService.isValidBase64 / handleBase64Input (io.service.ts)

The source validates with the regular expression
`^([0-9a-zA-Z+/]{4})*(([0-9a-zA-Z+/]{2}==)|([0-9a-zA-Z+/]{3}=))?$`
and then decodes with `Buffer.from(code, 'base64')`.
-/

/-- Membership in the base64 alphabet class `[0-9a-zA-Z+/]` of the source regex. -/
def isBase64Char (c : Char) : Bool :=
  ('0' ≤ c && c ≤ '9') || ('a' ≤ c && c ≤ 'z') || ('A' ≤ c && c ≤ 'Z') || c = '+' || c = '/'

/-- Executable transcription of the source regex
`^([0-9a-zA-Z+/]{4})*(([0-9a-zA-Z+/]{2}==)|([0-9a-zA-Z+/]{3}=))?$`:
the string is consumed four characters at a time; every non-final quad is four
alphabet characters, and the final quad is either four alphabet characters
(a `{4}` group), or two alphabet characters followed by `==`, or three
alphabet characters followed by `=`. -/
def isValidBase64 : List Char → Bool
  | [] => true
  | a :: b :: c :: d :: rest =>
    if rest = [] then
      isBase64Char a && isBase64Char b &&
        ((isBase64Char c && isBase64Char d) ||
         (isBase64Char c && d = '=') ||
         (c = '=' && d = '='))
    else
      isBase64Char a && isBase64Char b && isBase64Char c && isBase64Char d &&
        isValidBase64 rest
  | _ => false

/-- The language of the source regex, stated structurally: zero or more groups
of four alphabet characters, optionally terminated by two alphabet characters
followed by `==` or three alphabet characters followed by `=`. -/
def CanonicalBase64 (s : List Char) : Prop :=
  ∃ (gs : List (List Char)) (tail : List Char),
    s = gs.flatten ++ tail ∧
    (∀ g ∈ gs, g.length = 4 ∧ ∀ c ∈ g, isBase64Char c = true) ∧
    (tail = [] ∨
     (∃ a b, tail = [a, b, '=', '='] ∧ isBase64Char a = true ∧ isBase64Char b = true) ∨
     (∃ a b c, tail = [a, b, c, '='] ∧ isBase64Char a = true ∧ isBase64Char b = true ∧
        isBase64Char c = true))

/-- Numeric value of one base64 digit (the table used by `Buffer.from(-, 'base64')`). -/
def base64CharVal (c : Char) : Nat :=
  if 'A' ≤ c && c ≤ 'Z' then c.toNat - 65
  else if 'a' ≤ c && c ≤ 'z' then c.toNat - 71
  else if '0' ≤ c && c ≤ '9' then c.toNat + 4
  else if c = '+' then 62
  else if c = '/' then 63
  else 0

/-- Base64 decoding of a validated string to its byte list, quad by quad:
a final `xx==` quad yields one byte, a final `xxx=` quad yields two bytes,
and a full quad yields three bytes. -/
def b64decode : List Char → List Nat
  | a :: b :: c :: d :: rest =>
    let n := base64CharVal a * 262144 + base64CharVal b * 4096 +
             base64CharVal c * 64 + base64CharVal d
    if c = '=' then [n / 65536]
    else if d = '=' then [n / 65536, n / 256 % 256]
    else n / 65536 :: n / 256 % 256 :: n % 256 :: b64decode rest
  | _ => []

/-- Embedding of `IoService.handleBase64Input`: validate with the regex, throw
`Input is not valid base64 encoded` on mismatch, otherwise return the decoded
bytes (the UTF-8 re-interpretation performed by `Buffer.toString` is not
re-modelled; the decoded byte list is returned). -/
def handleBase64Input (code : List Char) : Except String (List Nat) :=
  if isValidBase64 code then .ok (b64decode code)
  else .error "Input is not valid base64 encoded"

/-! ## IoService.parseOutput / getContainerOutput (io.service.ts)

`parseOutput` splits the chunk on newlines, drops the first 8 characters of
each line (the docker stream header) and re-joins the non-empty remainders,
each with a trailing newline.  `getContainerOutput` concatenates
`parseOutput` of every arriving chunk.
-/

/-- JavaScript `String.prototype.split('\n')`: the list of newline-separated
segments, with an empty segment for a leading, trailing or doubled newline. -/
def splitOnNl : List Char → List (List Char)
  | [] => [[]]
  | c :: rest =>
    if c = '\n' then [] :: splitOnNl rest
    else
      match splitOnNl rest with
      | [] => [[c]]
      | g :: gs => (c :: g) :: gs

/-- Embedding of `IoService.parseOutput`: split on newlines, slice off the
first 8 characters of each segment, and append each non-empty remainder plus
one trailing newline to the accumulated result. -/
def parseOutput (output : List Char) : List Char :=
  (splitOnNl output).foldl
    (fun result element =>
      let element := element.drop 8
      if element ≠ [] then result ++ element ++ ['\n'] else result)
    []

/-- Embedding of `IoService.getContainerOutput`: the data accumulated from the
log stream, `parseOutput` applied to each chunk in arrival order. -/
def getContainerOutput (chunks : List (List Char)) : List Char :=
  chunks.foldl (fun data chunk => data ++ parseOutput chunk) []

/-- One frame of the container log stream: an 8-byte multiplexing header
followed by the payload. -/
structure LogFrame where
  header : List Char
  payload : List Char

/-! ## IoService.convertMemoryLimitToBytes (io.service.ts) -/

/-- JavaScript `parseInt` restricted to the digit strings this service feeds
it: the longest leading run of decimal digits, `none` for `NaN` when there is
no leading digit. -/
def jsParseInt (s : List Char) : Option Nat :=
  let digits := s.takeWhile Char.isDigit
  if digits = [] then none
  else some (digits.foldl (fun acc c => 10 * acc + (c.toNat - 48)) 0)

/-- Embedding of `IoService.convertMemoryLimitToBytes`: the unit is the
lower-cased last character (`slice(-1)`), the value is `parseInt` of the
string with its last character removed (`slice(0, -1)`), and the unit selects
the multiplier.  `none` models a `NaN` result. -/
def convertMemoryLimitToBytes (memoryLimit : List Char) : Option Nat :=
  let memoryLimitUnit := (memoryLimit.drop (memoryLimit.length - 1)).map Char.toLower
  let memoryLimitValue := jsParseInt memoryLimit.dropLast
  if memoryLimitUnit = ['g'] then memoryLimitValue.map (· * (1024 * 1024 * 1024))
  else if memoryLimitUnit = ['m'] then memoryLimitValue.map (· * (1024 * 1024))
  else if memoryLimitUnit = ['k'] then memoryLimitValue.map (· * 1024)
  else memoryLimitValue

/-! ## Result normalization (java/cpp/python *-execution.service.ts)

The assignment runners read side-channel files from the workspace after the
container exits and shape a `{ output, testResults, testsPassed, score }`
result.  A side-channel file is modelled as `Option String` (`none` when the
file does not exist), and the parsed `test-results.json` as
`Option (List TestOutcome)`.
-/

/-- One entry of `test-results.json`, and the shape of the synthetic outcomes
the runners build on compilation failure. -/
structure TestOutcome where
  test : String
  status : String
deriving DecidableEq

/-- The assignment result returned by the three assignment runners.  The
floating-point score is modelled exactly, as a rational. -/
structure AssignmentResult where
  output : String
  testResults : List TestOutcome
  testsPassed : Bool
  score : ℚ
deriving DecidableEq

/-- The number of results whose `status` is `SUCCESSFUL` (the
`filter(... status === "SUCCESSFUL").length` computation of all three
runners). -/
def passedCount (results : List TestOutcome) : Nat :=
  (results.filter (fun result => result.status = "SUCCESSFUL")).length

/-- Embedding of the result shaping of `runJavaAssignment`
(java-execution.service.ts): check `main_compile_errors.txt`, then
`test_compile_errors.txt` (both checks run; the second overwrites
`jsonResults` but not `programOutput`); when neither is non-empty, read
`program_output.txt` and `test-results.json` (missing files default to `""`
and `[]`) and aggregate with `testsPassed = passedTests === totalTests` and
`score = totalTests > 0 ? passedTests / totalTests * 100 : 0`. -/
def runJavaAssignmentResult (mainCompileErrors testCompileErrors : Option String)
    (programOutputFile : Option String) (testResultsFile : Option (List TestOutcome)) :
    AssignmentResult :=
  let step1 : String × List TestOutcome × Bool :=
    match mainCompileErrors with
    | some errs =>
      if errs.length > 0 then (errs, [⟨"MAIN_COMPILATION", "FAILED"⟩], true)
      else ("", [], false)
    | none => ("", [], false)
  let step2 : String × List TestOutcome × Bool :=
    match testCompileErrors with
    | some errs =>
      if errs.length > 0 then (step1.1, [⟨"TEST_COMPILATION", "FAILED"⟩], true)
      else step1
    | none => step1
  if step2.2.2 then
    { output := step2.1, testResults := step2.2.1, testsPassed := false, score := 0 }
  else
    let programOutput := programOutputFile.getD ""
    let jsonResults := testResultsFile.getD []
    let passedTests := passedCount jsonResults
    let totalTests := jsonResults.length
    let testsPassed := decide (passedTests = totalTests)
    let score : ℚ := if totalTests > 0 then (passedTests : ℚ) / (totalTests : ℚ) * 100 else 0
    { output := programOutput, testResults := jsonResults, testsPassed := testsPassed,
      score := score }

/-- Embedding of the result shaping of `runCppAssignment`
(cpp-execution.service.ts): a non-empty `compile_errors.txt` returns
immediately with a single `COMPILATION` failure carrying the diagnostics as
output; otherwise `program_output.txt` is read, a non-empty
`test_compile_errors.txt` returns a single `TEST_COMPILATION` failure with the
program output as output; otherwise `test-results.json` is aggregated exactly
as in the Java runner. -/
def runCppAssignmentResult (compileErrors : Option String)
    (programOutputFile : Option String) (testCompileErrors : Option String)
    (testResultsFile : Option (List TestOutcome)) : AssignmentResult :=
  let mainFailed : Bool :=
    match compileErrors with
    | some errs => decide (errs.length > 0)
    | none => false
  if mainFailed then
    { output := compileErrors.getD "", testResults := [⟨"COMPILATION", "FAILED"⟩],
      testsPassed := false, score := 0 }
  else
    let programOutput := programOutputFile.getD ""
    let testFailed : Bool :=
      match testCompileErrors with
      | some errs => decide (errs.length > 0)
      | none => false
    if testFailed then
      { output := programOutput, testResults := [⟨"TEST_COMPILATION", "FAILED"⟩],
        testsPassed := false, score := 0 }
    else
      let jsonResults := testResultsFile.getD []
      let passedTests := passedCount jsonResults
      let totalTests := jsonResults.length
      let testsPassed := decide (passedTests = totalTests)
      let score : ℚ := if totalTests > 0 then (passedTests : ℚ) / (totalTests : ℚ) * 100 else 0
      { output := programOutput, testResults := jsonResults, testsPassed := testsPassed,
        score := score }

/-- Embedding of the result shaping of `runPythonAssignment`
(python-execution.service.ts): a non-zero container exit status returns a
single `MAIN_COMPILATION` failure with `testsPassed = false` and `score = 0`;
otherwise `test-results.json` is aggregated with
`testsPassed = totalTests > 0 ? passedTests === totalTests : false` and the
same guarded score formula. -/
def runPythonAssignmentResult (statusCode : Int) (output : String)
    (testResultsFile : Option (List TestOutcome)) : AssignmentResult :=
  if statusCode ≠ 0 then
    { output := output, testResults := [⟨"MAIN_COMPILATION", "FAILED"⟩],
      testsPassed := false, score := 0 }
  else
    let testResults := testResultsFile.getD []
    let passedTests := passedCount testResults
    let totalTests := testResults.length
    let testsPassed := if totalTests > 0 then decide (passedTests = totalTests) else false
    let score : ℚ := if totalTests > 0 then (passedTests : ℚ) / (totalTests : ℚ) * 100 else 0
    { output := output, testResults := testResults, testsPassed := testsPassed, score := score }

/-- The aggregation formula as the specification states it:
`testsPassed := totalTests > 0 AND passedTests == totalTests`.  Kept for
comparison with the runner embeddings above, which are translated from the
source. -/
def specTestsPassed (results : List TestOutcome) : Bool :=
  decide (0 < results.length) && decide (passedCount results = results.length)

/-! ## Batch runner cleanup skeletons
(java-execution.service.ts, cpp-execution.service.ts,
python-execution.service.ts)

Each batch runner creates the workspace and lays out files before its
`try` block, and stops the container / removes the workspace in the
`finally` block.  The model maps an environment of step outcomes to the
pair (did the runner return normally, trace of steps performed).
-/

/-- Outcomes of the fallible steps of one batch execution request. -/
structure ExecEnv where
  /-- base64 decoding, sanitization and file writes all succeed -/
  layoutOk : Bool
  /-- `createAndStartContainer` succeeds -/
  createOk : Bool
  /-- fetching output / waiting for the container succeeds -/
  runOk : Bool
deriving DecidableEq

/-- The observable steps a batch runner performs. -/
inductive Step
  | mkdirWorkspace
  | layoutFiles
  | createStartContainer
  | fetchOutput
  | stopRemoveContainer
  | rmWorkspace
deriving DecidableEq

/-- Embedding of the control flow of `runJavaCode`
(java-execution.service.ts).  `mkdirSync` and `handleFileOperations` run
before the `try` block, so a layout failure propagates with no cleanup.  When
`createAndStartContainer` throws, the `container` local is still `undefined`
and the `finally` block dereferences `container.id` inside
`stopAndRemoveContainer`, which itself throws, so `rmSync` is never reached.
On the remaining paths the `finally` block stops/removes the container and
removes the workspace whether or not fetching the output succeeded. -/
def runJavaCode (e : ExecEnv) : Bool × List Step :=
  if !e.layoutOk then (false, [.mkdirWorkspace, .layoutFiles])
  else if !e.createOk then (false, [.mkdirWorkspace, .layoutFiles, .createStartContainer])
  else if !e.runOk then
    (false, [.mkdirWorkspace, .layoutFiles, .createStartContainer, .fetchOutput,
             .stopRemoveContainer, .rmWorkspace])
  else
    (true, [.mkdirWorkspace, .layoutFiles, .createStartContainer, .fetchOutput,
            .stopRemoveContainer, .rmWorkspace])

/-- Embedding of the control flow of `runPythonAssignment`
(python-execution.service.ts): identical cleanup structure to `runJavaCode`
at this granularity (workspace creation and file layout before the `try`,
container stop/remove plus `rmSync` in the `finally`). -/
def runPythonAssignment (e : ExecEnv) : Bool × List Step :=
  if !e.layoutOk then (false, [.mkdirWorkspace, .layoutFiles])
  else if !e.createOk then (false, [.mkdirWorkspace, .layoutFiles, .createStartContainer])
  else if !e.runOk then
    (false, [.mkdirWorkspace, .layoutFiles, .createStartContainer, .fetchOutput,
             .stopRemoveContainer, .rmWorkspace])
  else
    (true, [.mkdirWorkspace, .layoutFiles, .createStartContainer, .fetchOutput,
            .stopRemoveContainer, .rmWorkspace])

/-- Embedding of the control flow of `runCppCode`
(cpp-execution.service.ts): same pre-`try` layout, but its `finally` block
only stops/removes the container and never calls `rmSync` on the
workspace. -/
def runCppCode (e : ExecEnv) : Bool × List Step :=
  if !e.layoutOk then (false, [.mkdirWorkspace, .layoutFiles])
  else if !e.createOk then (false, [.mkdirWorkspace, .layoutFiles, .createStartContainer])
  else if !e.runOk then
    (false, [.mkdirWorkspace, .layoutFiles, .createStartContainer, .fetchOutput,
             .stopRemoveContainer])
  else
    (true, [.mkdirWorkspace, .layoutFiles, .createStartContainer, .fetchOutput,
            .stopRemoveContainer])

/-! ## Container status map and stop/remove
(io.service.ts `stopAndRemoveContainer`, execution-ws.gateway.ts
`handleDisconnect`)

The process-wide `containerStatuses : Map<string, 'running' | 'stopping' |
'stopped'>` is modelled as an association list, and the Docker API calls a
routine issues are collected in a trace.
-/

/-- The three states the `containerStatuses` map records. -/
inductive ContainerStatus
  | running
  | stopping
  | stopped
deriving DecidableEq

/-- Requests a routine issues to the container runtime. -/
inductive DockerCall
  | inspectC (cid : String)
  | stopC (cid : String)
  | removeC (cid : String)
deriving DecidableEq

/-- JavaScript `Map.prototype.get` on an association list. -/
def mapGet {α : Type} : List (String × α) → String → Option α
  | [], _ => none
  | (k, v) :: rest, key => if k = key then some v else mapGet rest key

/-- JavaScript `Map.prototype.set` on an association list. -/
def mapSet {α : Type} : List (String × α) → String → α → List (String × α)
  | [], key, v => [(key, v)]
  | (k, w) :: rest, key, v =>
    if k = key then (key, v) :: rest else (k, w) :: mapSet rest key v

/-- JavaScript `Map.prototype.delete` on an association list. -/
def mapDelete {α : Type} : List (String × α) → String → List (String × α)
  | [], _ => []
  | (k, w) :: rest, key =>
    if k = key then mapDelete rest key else (k, w) :: mapDelete rest key

/-- Outcomes of the Docker API calls `stopAndRemoveContainer` can make. -/
structure DockerEnv where
  /-- `container.inspect()` throws -/
  inspectFails : Bool
  /-- the inspected `State.Status` is `exited` -/
  exited : Bool
  /-- `container.stop()` throws -/
  stopFails : Bool
  /-- `container.remove()` throws -/
  removeFails : Bool
deriving DecidableEq

/-- Embedding of `IoService.stopAndRemoveContainer`: a container whose map
status is not `running` (or is absent) is a logged no-op.  Otherwise the
container is inspected; when it has not already exited its entry transitions
to `stopping`, `stop` is requested, the entry transitions to `stopped`; then
`remove` is requested and the entry is deleted.  The surrounding `try/catch`
swallows any Docker error, so a failing call simply stops the sequence there,
leaving the map as last written. -/
def stopAndRemoveContainer (m : List (String × ContainerStatus)) (cid : String)
    (env : DockerEnv) : List (String × ContainerStatus) × List DockerCall :=
  if mapGet m cid ≠ some .running then (m, [])
  else if env.inspectFails then (m, [.inspectC cid])
  else if env.exited = false then
    let m1 := mapSet m cid .stopping
    if env.stopFails then (m1, [.inspectC cid, .stopC cid])
    else
      let m2 := mapSet m1 cid .stopped
      if env.removeFails then (m2, [.inspectC cid, .stopC cid, .removeC cid])
      else (mapDelete m2 cid, [.inspectC cid, .stopC cid, .removeC cid])
  else
    if env.removeFails then (m, [.inspectC cid, .removeC cid])
    else (mapDelete m cid, [.inspectC cid, .removeC cid])

/-- Embedding of `ExecutionWsGateway.handleDisconnect`: the session map (client
id to container id) is consulted — not the container status map — and the
container found there receives `stop` and `remove` calls directly. -/
def handleDisconnect (sessions : List (String × String)) (clientId : String) :
    List (String × String) × List DockerCall :=
  match mapGet sessions clientId with
  | some cid => (mapDelete sessions clientId, [.stopC cid, .removeC cid])
  | none => (sessions, [])

/-! ## ExecutionWsService.startProgram (execution-ws.service.ts) -/

/-- Embedding of `ExecutionWsService.startProgram`: the command line written
into `/commandListener/commands.txt` is `run` for Python and
`run <mainClassName>` for Java, where a missing class name is interpolated by
the JavaScript template literal as the text `undefined`; any other language
throws `Unsupported programming language`. -/
def startProgram (language : String) (mainClassName : Option String) :
    Except String String :=
  if language = "python" then .ok "run"
  else if language = "java" then
    .ok ("run " ++ (match mainClassName with | some n => n | none => "undefined"))
  else .error "Unsupported programming language"

/-! ## Sanitizer services (python-sanitizer.service.ts,
java-sanitizer.service.ts)

Every blacklist pattern of both services has the shape
`literal (\s+ | \s*) literal` or is a plain literal, with no whitespace at
the start of the trailing literal.  A pattern is modelled as a triple
`(lead, needOne, trail)`: the leading literal, whether at least one
whitespace character is required (`\s+` against `\s*`), and the trailing
literal (empty for plain-literal patterns).
-/

/-- JavaScript `\s` restricted to the ASCII whitespace characters. -/
def isJsWhitespace (c : Char) : Bool :=
  c = ' ' || c = '\t' || c = '\n' || c = '\r' || c = '\x0b' || c = '\x0c'

/-- Matching of one `lead (\s+|\s*) trail` pattern at the head of `s`: the
leading literal, then the (maximal) whitespace run — required non-empty when
`needOne` — then the trailing literal.  Since no trailing literal of the
blacklists starts with whitespace, taking the maximal run is exact. -/
def matchGapAt (lead : List Char) (needOne : Bool) (trail : List Char)
    (s : List Char) : Bool :=
  if lead.isPrefixOf s then
    let r := s.drop lead.length
    let w := (r.takeWhile isJsWhitespace).length
    (!needOne || decide (0 < w)) && trail.isPrefixOf (r.drop w)
  else false

/-- Unanchored matching (`RegExp.prototype.test`) of one blacklist pattern:
`matchGapAt` tried at every suffix of the code. -/
def scanGap (lead : List Char) (needOne : Bool) (trail : List Char) :
    List Char → Bool
  | [] => matchGapAt lead needOne trail []
  | s@(_ :: t) => matchGapAt lead needOne trail s || scanGap lead needOne trail t

/-- One blacklist pattern: leading literal, whether the whitespace gap is
`\s+` (against `\s*`), trailing literal. -/
structure BlacklistPattern where
  lead : List Char
  needOne : Bool
  trail : List Char
deriving DecidableEq

/-- The fixed blacklist of `PythonSanitizerService`, pattern by pattern:
`import\s+os`, `import\s+sys`, `__import__`, `exec\s*\(`, `eval\s*\(`,
`subprocess`, `open\s*\(`. -/
def pythonBlacklist : List BlacklistPattern :=
  [⟨"import".toList, true, "os".toList⟩,
   ⟨"import".toList, true, "sys".toList⟩,
   ⟨"__import__".toList, false, []⟩,
   ⟨"exec".toList, false, "(".toList⟩,
   ⟨"eval".toList, false, "(".toList⟩,
   ⟨"subprocess".toList, false, []⟩,
   ⟨"open".toList, false, "(".toList⟩]

/-- The fixed blacklist of `JavaSanitizerService`, pattern by pattern:
`Runtime\.getRuntime\(\)\.exec\(`, `System\.exit`, `java\.net`,
`javax\.script` — all escaped literals. -/
def javaBlacklist : List BlacklistPattern :=
  [⟨"Runtime.getRuntime().exec(".toList, false, []⟩,
   ⟨"System.exit".toList, false, []⟩,
   ⟨"java.net".toList, false, []⟩,
   ⟨"javax.script".toList, false, []⟩]

/-- The shared `isSafe` predicate of both sanitizer services: no blacklist
pattern matches the code. -/
def isSafe (blacklist : List BlacklistPattern) (code : List Char) : Bool :=
  !(blacklist.any fun p => scanGap p.lead p.needOne p.trail code)

/-- The shared `sanitize` of both sanitizer services: throw when some
blacklist pattern matches, otherwise return the code unchanged. -/
def sanitize (blacklist : List BlacklistPattern) (errorMessage : String)
    (code : List Char) : Except String (List Char) :=
  if !isSafe blacklist code then .error errorMessage else .ok code

/-- Embedding of `PythonSanitizerService.sanitize`. -/
def pythonSanitize (code : List Char) : Except String (List Char) :=
  sanitize pythonBlacklist "Potentially unsafe Python code detected." code

/-- Embedding of `JavaSanitizerService.sanitize`. -/
def javaSanitize (code : List Char) : Except String (List Char) :=
  sanitize javaBlacklist "Potentially unsafe Java code detected." code

/-! ## IoService.handleFileOperations — Java package placement
(io.service.ts)

For Java files the decoded content is matched against the multiline regex
`^package\s+([a-zA-Z0-9_.]*);` and a match places the file under the package
directory; otherwise the file is placed flat.
-/

/-- Membership in the class `[a-zA-Z0-9_.]` of the package-name capture
group. -/
def isPackageNameChar (c : Char) : Bool :=
  ('a' ≤ c && c ≤ 'z') || ('A' ≤ c && c ≤ 'Z') || ('0' ≤ c && c ≤ '9') ||
    c = '_' || c = '.'

/-- The literal `package` of the regex. -/
def packageLit : List Char := "package".toList

/-- Matching of `package\s+([a-zA-Z0-9_.]*);` at the head of `s`: the literal
`package`, a non-empty (maximal) whitespace run, the (maximal) run of
package-name characters as the captured group, then `;`.  The maximal runs
are exact because the three character classes involved are pairwise
disjoint. -/
def matchPackageAt (s : List Char) : Option (List Char) :=
  if packageLit.isPrefixOf s then
    let rest := s.drop packageLit.length
    let ws := (rest.takeWhile isJsWhitespace).length
    if ws = 0 then none
    else
      let afterWs := rest.drop ws
      let name := afterWs.takeWhile isPackageNameChar
      match afterWs.drop name.length with
      | ';' :: _ => some name
      | _ => none
  else none

/-- Scanner for the multiline regex: walk the string position by position,
carrying whether the current position is a line start (the string start, or
the position just after a newline), and try `matchPackageAt` at every line
start.  The first (leftmost) match wins, as with `String.prototype.match`. -/
def findPackageFrom : List Char → Bool → Option (List Char)
  | [], atLineStart => if atLineStart then matchPackageAt [] else none
  | c :: t, atLineStart =>
    match (if atLineStart then matchPackageAt (c :: t) else none) with
    | some name => some name
    | none => findPackageFrom t (c = '\n')

/-- The `String.prototype.match` of the multiline regex
`^package\s+([a-zA-Z0-9_.]*);/m`: with the `m` flag, `^` anchors the match at
each line start, and the leftmost match wins; the captured group is
returned. -/
def findPackageName (s : List Char) : Option (List Char) :=
  findPackageFrom s true

/-- Node `path.join` restricted to the already-normalized segments this
service joins (a join with an empty second segment returns the first). -/
def pathJoin (a b : List Char) : List Char :=
  if b = [] then a else a ++ '/' :: b

/-- The `replace(/\./g, '/')` of the captured package name. -/
def packagePathOf (pkg : List Char) : List Char :=
  pkg.map fun c => if c = '.' then '/' else c

/-- Embedding of the target-path computation of
`IoService.handleFileOperations` for a Java file: when the package regex
matches the decoded content, the file goes under
`tempDir/<package path>/<filename>` (with `mkdirSync` recursive creating the
intermediate directories); otherwise under `tempDir/<filename>`. -/
def javaFilePath (tempDir fileContent filename : List Char) : List Char :=
  match findPackageName fileContent with
  | some pkg => pathJoin (pathJoin tempDir (packagePathOf pkg)) filename
  | none => pathJoin tempDir filename

/-! ## Theorems -/

/-- C3: the code maps a suffix `K`/`k` to value·1024, `M`/`m` to value·1024²
and `G`/`g` to value·1024³ as claimed, but a bare digit string is not returned
as that number of bytes: `slice(0, -1)` drops the last digit before
`parseInt`, so `512` converts to 51 bytes, contradicting both the claim and
the doc comment of `convertMemoryLimitToBytes` itself. -/
theorem convertMemoryLimitToBytes_eval :
    convertMemoryLimitToBytes "512".toList = some 51 ∧
    convertMemoryLimitToBytes "512k".toList = some 524288 ∧
    convertMemoryLimitToBytes "4M".toList = some 4194304 ∧
    convertMemoryLimitToBytes "2g".toList = some 2147483648 := by decide

/-- C1 counterexample: a batch request whose payload fails base64 decoding
(or sanitization) throws inside `handleFileOperations`, which runs before the
`try`/`finally` of `runJavaCode`, so the runner terminates with the workspace
directory still on disk — the claimed cleanup invariant fails. -/
theorem runJavaCode_layout_failure_leaks_workspace :
    (runJavaCode ⟨false, true, true⟩).1 = false ∧
    Step.rmWorkspace ∉ (runJavaCode ⟨false, true, true⟩).2 := by decide

/-- C1 amended: once file layout and container creation/start have succeeded,
`runJavaCode` and `runPythonAssignment` stop/remove the container and remove
the workspace on every remaining path, success or failure; `runCppCode` stops
the container on those paths but never removes its workspace directory. -/
theorem runner_cleanup_after_container_start (e : ExecEnv)
    (hl : e.layoutOk = true) (hc : e.createOk = true) :
    (Step.stopRemoveContainer ∈ (runJavaCode e).2 ∧
      Step.rmWorkspace ∈ (runJavaCode e).2) ∧
    (Step.stopRemoveContainer ∈ (runPythonAssignment e).2 ∧
      Step.rmWorkspace ∈ (runPythonAssignment e).2) ∧
    Step.stopRemoveContainer ∈ (runCppCode e).2 ∧
    (∀ e2 : ExecEnv, Step.rmWorkspace ∉ (runCppCode e2).2) := by
  obtain ⟨l, c, r⟩ := e
  simp only at hl hc
  subst hl hc
  refine ⟨?_, ?_, ?_, ?_⟩
  · cases r <;> decide
  · cases r <;> decide
  · cases r <;> decide
  · intro e2
    obtain ⟨l2, c2, r2⟩ := e2
    cases l2 <;> cases c2 <;> cases r2 <;> decide

/-- C1 amended witness: on the all-success path the Java runner performs the
stop-and-remove step. -/
theorem runner_cleanup_after_container_start_witness :
    Step.stopRemoveContainer ∈ (runJavaCode ⟨true, true, true⟩).2 :=
  (runner_cleanup_after_container_start ⟨true, true, true⟩ rfl rfl).1.1

/-- C2 counterexample: with an empty parsed test-results list the Java runner
returns `testsPassed = true` (it computes `passedTests === totalTests` with
no `totalTests > 0` guard), while the claimed formula
`totalTests > 0 AND passedTests = totalTests` demands `false`. -/
theorem runJavaAssignment_zero_tests_counterexample :
    (runJavaAssignmentResult none none (some "") (some [])).testsPassed = true ∧
    specTestsPassed [] = false := by decide

/-- C2 amended: for every parsed test-results list, all three assignment
runners compute `score = 100·passed/total` when `total > 0` and `score = 0`
otherwise; the Python runner computes `testsPassed = (total > 0 AND
passed = total)` as claimed, but the Java and C++ runners compute
`testsPassed = (passed = total)`, which agrees with the claimed formula only
when `total > 0` and yields `true` on an empty list. -/
theorem assignment_aggregation_amended (results : List TestOutcome) (out : String) :
    ((runPythonAssignmentResult 0 out (some results)).testsPassed =
      specTestsPassed results) ∧
    ((runJavaAssignmentResult none none (some out) (some results)).testsPassed =
      decide (passedCount results = results.length)) ∧
    ((runCppAssignmentResult none (some out) none (some results)).testsPassed =
      decide (passedCount results = results.length)) ∧
    ((runPythonAssignmentResult 0 out (some results)).score =
      if 0 < results.length then
        100 * (passedCount results : ℚ) / (results.length : ℚ) else 0) ∧
    ((runJavaAssignmentResult none none (some out) (some results)).score =
      if 0 < results.length then
        100 * (passedCount results : ℚ) / (results.length : ℚ) else 0) ∧
    ((runCppAssignmentResult none (some out) none (some results)).score =
      if 0 < results.length then
        100 * (passedCount results : ℚ) / (results.length : ℚ) else 0) := by
  have key : ∀ p t : ℕ,
      (if 0 < t then (p : ℚ) / (t : ℚ) * 100 else 0) =
        (if 0 < t then 100 * (p : ℚ) / (t : ℚ) else 0) := by
    intro p t
    split_ifs
    · ring
    · rfl
  refine ⟨?_, ?_, ?_, ?_, ?_, ?_⟩
  · by_cases h : 0 < results.length <;>
      simp [runPythonAssignmentResult, specTestsPassed, h]
  · simp [runJavaAssignmentResult]
  · simp [runCppAssignmentResult]
  · simpa [runPythonAssignmentResult] using key (passedCount results) results.length
  · simpa [runJavaAssignmentResult] using key (passedCount results) results.length
  · simpa [runCppAssignmentResult] using key (passedCount results) results.length

/-- C8 counterexample: a non-empty `compile_errors.txt` makes the C++ runner
return the synthetic outcome name `COMPILATION`, which is none of the three
names `MAIN_COMPILATION`, `TEST_COMPILATION`, `Compilation` the claim
allows. -/
theorem runCppAssignment_compilation_name_counterexample :
    (runCppAssignmentResult (some "main.cpp: error") none none none).testResults =
      [⟨"COMPILATION", "FAILED"⟩] ∧
    "COMPILATION" ≠ "MAIN_COMPILATION" ∧
    "COMPILATION" ≠ "TEST_COMPILATION" ∧
    "COMPILATION" ≠ "Compilation" := by decide

/-- C8 amended: a non-empty compiler-error side channel always yields exactly
one synthetic `FAILED` outcome named `MAIN_COMPILATION`, `TEST_COMPILATION`
or `COMPILATION`, with `testsPassed = false` and `score = 0`; the `output`
holds the main-compilation diagnostics verbatim when the main compilation
failed (also when the test compilation failed too), but a Java
test-compilation failure alone leaves `output` empty and a C++
test-compilation failure leaves `output` holding the program output. -/
theorem assignment_compilation_failure_amended
    (mainErrs testErrs progOut : String) (results : Option (List TestOutcome)) :
    (0 < mainErrs.length →
      runJavaAssignmentResult (some mainErrs) (some "") (some progOut) results =
        ⟨mainErrs, [⟨"MAIN_COMPILATION", "FAILED"⟩], false, 0⟩) ∧
    (0 < testErrs.length →
      runJavaAssignmentResult (some "") (some testErrs) (some progOut) results =
        ⟨"", [⟨"TEST_COMPILATION", "FAILED"⟩], false, 0⟩) ∧
    (0 < mainErrs.length → 0 < testErrs.length →
      runJavaAssignmentResult (some mainErrs) (some testErrs) (some progOut) results =
        ⟨mainErrs, [⟨"TEST_COMPILATION", "FAILED"⟩], false, 0⟩) ∧
    (0 < mainErrs.length →
      runCppAssignmentResult (some mainErrs) (some progOut) (some testErrs) results =
        ⟨mainErrs, [⟨"COMPILATION", "FAILED"⟩], false, 0⟩) ∧
    (0 < testErrs.length →
      runCppAssignmentResult (some "") (some progOut) (some testErrs) results =
        ⟨progOut, [⟨"TEST_COMPILATION", "FAILED"⟩], false, 0⟩) := by
  refine ⟨fun hm => ?_, fun ht => ?_, fun hm ht => ?_, fun hm => ?_, fun ht => ?_⟩
  · simp [runJavaAssignmentResult, hm]
  · simp [runJavaAssignmentResult, ht]
  · simp [runJavaAssignmentResult, hm, ht]
  · simp [runCppAssignmentResult, hm]
  · simp [runCppAssignmentResult, ht]

/-- C8 amended witness: a concrete non-empty main-compilation error file
produces the single synthetic `MAIN_COMPILATION` failure in the Java
runner. -/
theorem assignment_compilation_failure_amended_witness :
    runJavaAssignmentResult (some "Main.java:1: error") (some "") (some "") none =
      ⟨"Main.java:1: error", [⟨"MAIN_COMPILATION", "FAILED"⟩], false, 0⟩ :=
  (assignment_compilation_failure_amended "Main.java:1: error" "" "" none).1 (by decide)

/-- C9 counterexample: `startProgram` for Java with no main class name does
not fail; the JavaScript template literal interpolates the missing value and
the command `run undefined` is written to the command file. -/
theorem startProgram_java_missing_class_counterexample :
    startProgram "java" none = .ok "run undefined" := rfl

/-- C9 amended: `startProgram` writes `run` for Python and
`run <mainClassName>` for Java; a Java request with no class name writes
`run undefined` instead of failing, and only an unsupported language throws
(`Unsupported programming language`). -/
theorem startProgram_amended (language : String) (mainClassName : Option String) :
    (language = "python" → startProgram language mainClassName = .ok "run") ∧
    (language = "java" → ∀ n, mainClassName = some n →
      startProgram language mainClassName = .ok ("run " ++ n)) ∧
    (language = "java" → mainClassName = none →
      startProgram language mainClassName = .ok "run undefined") ∧
    (language ≠ "python" → language ≠ "java" →
      startProgram language mainClassName = .error "Unsupported programming language") := by
  refine ⟨fun h => ?_, fun h n hn => ?_, fun h hn => ?_, fun h1 h2 => ?_⟩ <;>
    simp_all [startProgram]

/-- C9 amended witness: the Python branch writes the bare `run` command. -/
theorem startProgram_amended_witness :
    startProgram "python" none = .ok "run" :=
  (startProgram_amended "python" none).1 rfl

/-- Updating a key makes it present with the new value. -/
theorem mapGet_mapSet {α : Type} (m : List (String × α)) (key : String) (v : α) :
    mapGet (mapSet m key v) key = some v := by
  induction m with
  | nil => simp [mapSet, mapGet]
  | cons kv rest ih =>
    obtain ⟨k, w⟩ := kv
    by_cases hk : k = key
    · simp [mapSet, mapGet, hk]
    · simp [mapSet, mapGet, hk, ih]

/-- Deleting a key makes it absent. -/
theorem mapGet_mapDelete {α : Type} (m : List (String × α)) (key : String) :
    mapGet (mapDelete m key) key = none := by
  induction m with
  | nil => simp [mapDelete, mapGet]
  | cons kv rest ih =>
    obtain ⟨k, w⟩ := kv
    by_cases hk : k = key
    · simp [mapDelete, hk, ih]
    · simp [mapDelete, mapGet, hk, ih]

/-- C7 counterexample: the WebSocket gateway disconnect handler looks the
container up in its session map and calls `stop` on it directly; for a
container that is absent from the container-status map the call is not a
no-op — a stop request is issued without any `running` → `stopping`
transition. -/
theorem handleDisconnect_bypasses_status_map :
    mapGet ([] : List (String × ContainerStatus)) "c1" = none ∧
    DockerCall.stopC "c1" ∈ (handleDisconnect [("client1", "c1")] "client1").2 := by
  constructor
  · rfl
  · simp [handleDisconnect, mapGet]

/-- C7 amended: inside `IoService.stopAndRemoveContainer` the claim holds —
a container absent from the status map or not `running` is a warned no-op
with no runtime calls; a stop request is issued exactly when the entry is
`running` (and inspection succeeds and reports a non-exited container), the
entry having transitioned to `stopping` (it is never `running` afterwards);
and the entry is deleted only when the remove call succeeded.  The gateway
disconnect handler, however, bypasses this routine entirely
(`handleDisconnect_bypasses_status_map`). -/
theorem stopAndRemoveContainer_spec (m : List (String × ContainerStatus))
    (cid : String) (env : DockerEnv) :
    (mapGet m cid ≠ some .running → stopAndRemoveContainer m cid env = (m, [])) ∧
    (DockerCall.stopC cid ∈ (stopAndRemoveContainer m cid env).2 ↔
      mapGet m cid = some .running ∧ env.inspectFails = false ∧ env.exited = false) ∧
    (DockerCall.stopC cid ∈ (stopAndRemoveContainer m cid env).2 →
      mapGet (stopAndRemoveContainer m cid env).1 cid ≠ some .running) ∧
    (∀ s, mapGet m cid = some s →
      mapGet (stopAndRemoveContainer m cid env).1 cid = none →
      env.removeFails = false ∧
        DockerCall.removeC cid ∈ (stopAndRemoveContainer m cid env).2) := by
  obtain ⟨insF, ex, stF, rmF⟩ := env
  by_cases hrun : mapGet m cid = some .running
  · cases insF <;> cases ex <;> cases stF <;> cases rmF <;>
      refine ⟨fun hcontra => absurd hrun hcontra, ?_, ?_, ?_⟩ <;>
      simp_all [stopAndRemoveContainer, mapGet_mapSet, mapGet_mapDelete]
  · have hred : stopAndRemoveContainer m cid ⟨insF, ex, stF, rmF⟩ = (m, []) := by
      simp [stopAndRemoveContainer, hrun]
    rw [hred]
    refine ⟨fun _ => rfl, by simp [hrun], by simp, ?_⟩
    intro s hs hnone
    rw [hs] at hnone
    exact absurd hnone (by simp)

/-- C7 amended witness: a concrete `running` container with all Docker calls
succeeding receives a stop request via the `stopping` transition. -/
theorem stopAndRemoveContainer_spec_witness :
    DockerCall.stopC "c1" ∈
      (stopAndRemoveContainer [("c1", .running)] "c1" ⟨false, false, false, false⟩).2 :=
  (stopAndRemoveContainer_spec [("c1", .running)] "c1"
    ⟨false, false, false, false⟩).2.1.mpr ⟨by simp [mapGet], rfl, rfl⟩

/-- Splitting a newline-free string yields the single segment. -/
theorem splitOnNl_of_not_mem {s : List Char} (h : '\n' ∉ s) : splitOnNl s = [s] := by
  induction s with
  | nil => rfl
  | cons c rest ih =>
    have hc : c ≠ '\n' := fun hc => h (hc ▸ List.mem_cons_self c rest)
    have hrest : '\n' ∉ rest := fun hr => h (List.mem_cons_of_mem c hr)
    simp only [splitOnNl, if_neg (fun hcc => hc hcc), ih hrest]

/-- `parseOutput` of a single frame: the 8-character header is stripped and
the payload, when non-empty, gets one trailing newline. -/
theorem parseOutput_frame (h p : List Char) (hlen : h.length = 8)
    (hh : '\n' ∉ h) (hp : '\n' ∉ p) :
    parseOutput (h ++ p) = if p = [] then [] else p ++ ['\n'] := by
  have hmem : '\n' ∉ h ++ p := by
    intro hc
    rcases List.mem_append.mp hc with hc | hc
    · exact hh hc
    · exact hp hc
  have hdrop : (h ++ p).drop 8 = p := by
    rw [← hlen, List.drop_left]
  simp only [parseOutput, splitOnNl_of_not_mem hmem, List.foldl_cons, List.foldl_nil,
    hdrop]
  by_cases hpe : p = []
  · simp [hpe]
  · simp [hpe]

/-- `getContainerOutput` concatenates `parseOutput` of the chunks in arrival
order. -/
theorem getContainerOutput_eq_flatten (chunks : List (List Char)) :
    getContainerOutput chunks = (chunks.map parseOutput).flatten := by
  have key : ∀ (l : List (List Char)) (init : List Char),
      l.foldl (fun data chunk => data ++ parseOutput chunk) init =
        init ++ (l.map parseOutput).flatten := by
    intro l
    induction l with
    | nil => intro init; simp
    | cons c t ih => intro init; simp [ih, List.append_assoc]
  simpa using key chunks []

/-- C4 counterexample: the claimed character-count formula fails on a frame
whose payload contains a newline.  The single chunk built from the 8-character
header `01234567` and the 3-character payload `hi\n` yields 3 output
characters, while the claim demands payload length plus one, that is 4 (the
line-based parser splits the chunk at the newline, keeps `hi` plus one
appended newline, and suppresses the empty final segment). -/
theorem getContainerOutput_frames_counterexample :
    (getContainerOutput ["01234567".toList ++ "hi\n".toList]).length = 3 ∧
    "hi\n".toList.length + 1 = 4 := by decide

/-- C4 amended: for a framed log stream in which each frame arrives as its own
chunk and neither the 8-character header nor the payload contains a newline
(the line-oriented streams the line-splitting parser is built for), the
demultiplexer strips each 8-byte header, suppresses frames whose payload is
empty, appends exactly one trailing newline to each non-empty payload and
preserves arrival order; consequently the total output length is the sum over
the frames of payload length plus one for each non-empty payload.  Outside
these conditions the formula fails
(`getContainerOutput_frames_counterexample`). -/
theorem getContainerOutput_frames (frames : List LogFrame)
    (hlen : ∀ f ∈ frames, f.header.length = 8)
    (hh : ∀ f ∈ frames, '\n' ∉ f.header)
    (hp : ∀ f ∈ frames, '\n' ∉ f.payload) :
    getContainerOutput (frames.map fun f => f.header ++ f.payload) =
      (frames.map fun f => if f.payload = [] then [] else f.payload ++ ['\n']).flatten ∧
    (getContainerOutput (frames.map fun f => f.header ++ f.payload)).length =
      (frames.map fun f =>
        f.payload.length + if f.payload ≠ [] then 1 else 0).sum := by
  have hmain :
      getContainerOutput (frames.map fun f => f.header ++ f.payload) =
        (frames.map fun f => if f.payload = [] then [] else f.payload ++ ['\n']).flatten := by
    rw [getContainerOutput_eq_flatten, List.map_map]
    congr 1
    apply List.map_congr_left
    intro f hf
    exact parseOutput_frame f.header f.payload (hlen f hf) (hh f hf) (hp f hf)
  refine ⟨hmain, ?_⟩
  rw [hmain, List.length_flatten, List.map_map]
  congr 1
  apply List.map_congr_left
  intro f _
  by_cases hpe : f.payload = []
  · simp [hpe]
  · simp [hpe]

/-- C4 witness: two frames, one with payload `ab` and one with an empty
payload, produce exactly three characters of output. -/
theorem getContainerOutput_frames_witness :
    (getContainerOutput
      (([⟨"01234567".toList, "ab".toList⟩,
         ⟨"01234567".toList, []⟩] : List LogFrame).map
        fun f => f.header ++ f.payload)).length = 3 :=
  (getContainerOutput_frames
    ([⟨"01234567".toList, "ab".toList⟩, ⟨"01234567".toList, []⟩] : List LogFrame)
    (by decide) (by decide) (by decide)).2.trans (by decide)

/-- A list of length four is an explicit four-element list. -/
theorem length_eq_four_exists {α : Type} {l : List α} (h : l.length = 4) :
    ∃ a b c d, l = [a, b, c, d] := by
  rcases l with _ | ⟨a, _ | ⟨b, _ | ⟨c, _ | ⟨d, rest⟩⟩⟩⟩ <;> simp at h
  exact ⟨a, b, c, d, by simp [h]⟩

/-- Unfolding of the checker on a final quad. -/
theorem isValidBase64_quad (a b c d : Char) :
    isValidBase64 [a, b, c, d] =
      (isBase64Char a && isBase64Char b &&
        ((isBase64Char c && isBase64Char d) ||
         (isBase64Char c && decide (d = '=')) ||
         (decide (c = '=') && decide (d = '=')))) := rfl

/-- Unfolding of the checker on a non-final quad. -/
theorem isValidBase64_cons (a b c d e : Char) (rest : List Char) :
    isValidBase64 (a :: b :: c :: d :: e :: rest) =
      (isBase64Char a && isBase64Char b && isBase64Char c && isBase64Char d &&
        isValidBase64 (e :: rest)) := rfl

/-- Soundness of the executable base64 checker against the structural
language (bounded induction on the length). -/
theorem isValidBase64_sound :
    ∀ (n : Nat) (s : List Char), s.length ≤ n → isValidBase64 s = true →
      CanonicalBase64 s := by
  intro n
  induction n with
  | zero =>
    intro s hlen _
    have hs : s = [] := List.length_eq_zero.mp (Nat.le_zero.mp hlen)
    subst hs
    exact ⟨[], [], rfl, by simp, Or.inl rfl⟩
  | succ n ih =>
    intro s hlen hv
    rcases s with _ | ⟨a, _ | ⟨b, _ | ⟨c, _ | ⟨d, rest⟩⟩⟩⟩
    · exact ⟨[], [], rfl, by simp, Or.inl rfl⟩
    · simp [isValidBase64] at hv
    · simp [isValidBase64] at hv
    · simp [isValidBase64] at hv
    · rcases rest with _ | ⟨e, rest⟩
      · rw [isValidBase64_quad] at hv
        simp only [Bool.and_eq_true, Bool.or_eq_true, decide_eq_true_eq] at hv
        obtain ⟨⟨ha, hb⟩, hcd⟩ := hv
        rcases hcd with (⟨hc, hd⟩ | ⟨hc, hd⟩) | ⟨hc, hd⟩
        · refine ⟨[[a, b, c, d]], [], by simp, ?_, Or.inl rfl⟩
          intro g hg
          simp only [List.mem_singleton] at hg
          subst hg
          refine ⟨rfl, ?_⟩
          intro x hx
          simp only [List.mem_cons, List.not_mem_nil, or_false] at hx
          rcases hx with rfl | rfl | rfl | rfl <;> assumption
        · subst hd
          exact ⟨[], [a, b, c, '='], rfl, by simp, Or.inr (Or.inr ⟨a, b, c, rfl, ha, hb, hc⟩)⟩
        · subst hc
          subst hd
          exact ⟨[], [a, b, '=', '='], rfl, by simp, Or.inr (Or.inl ⟨a, b, rfl, ha, hb⟩)⟩
      · rw [isValidBase64_cons] at hv
        simp only [Bool.and_eq_true] at hv
        obtain ⟨⟨⟨⟨ha, hb⟩, hc⟩, hd⟩, hrest⟩ := hv
        have hlenr : (e :: rest).length ≤ n := by
          simp only [List.length_cons] at hlen ⊢
          omega
        obtain ⟨gs, tail, hs, hgs, htail⟩ := ih (e :: rest) hlenr hrest
        refine ⟨[a, b, c, d] :: gs, tail, by simp [hs], ?_, htail⟩
        intro g hg
        rcases List.mem_cons.mp hg with hg | hg
        · subst hg
          refine ⟨rfl, ?_⟩
          intro x hx
          simp only [List.mem_cons, List.not_mem_nil, or_false] at hx
          rcases hx with rfl | rfl | rfl | rfl <;> assumption
        · exact hgs g hg

/-- Completeness of the executable base64 checker against the structural
language. -/
theorem isValidBase64_complete :
    ∀ (gs : List (List Char)) (tail : List Char),
      (∀ g ∈ gs, g.length = 4 ∧ ∀ c ∈ g, isBase64Char c = true) →
      (tail = [] ∨
       (∃ a b, tail = [a, b, '=', '='] ∧ isBase64Char a = true ∧ isBase64Char b = true) ∨
       (∃ a b c, tail = [a, b, c, '='] ∧ isBase64Char a = true ∧ isBase64Char b = true ∧
          isBase64Char c = true)) →
      isValidBase64 (gs.flatten ++ tail) = true := by
  intro gs
  induction gs with
  | nil =>
    intro tail _ htail
    rcases htail with h | ⟨a, b, h, ha, hb⟩ | ⟨a, b, c, h, ha, hb, hc⟩
    · subst h; rfl
    · subst h
      rw [show ([] : List (List Char)).flatten ++ [a, b, '=', '='] = [a, b, '=', '='] by rfl]
      rw [isValidBase64_quad, ha, hb]
      simp
    · subst h
      rw [show ([] : List (List Char)).flatten ++ [a, b, c, '='] = [a, b, c, '='] by rfl]
      rw [isValidBase64_quad, ha, hb, hc]
      simp
  | cons g gs ih =>
    intro tail hgs htail
    obtain ⟨hg4, hgc⟩ := hgs g (List.mem_cons_self g gs)
    obtain ⟨a, b, c, d, rfl⟩ := length_eq_four_exists hg4
    have ha := hgc a (by simp)
    have hb := hgc b (by simp)
    have hc := hgc c (by simp)
    have hd := hgc d (by simp)
    have ihv := ih tail (fun x hx => hgs x (List.mem_cons_of_mem _ hx)) htail
    show isValidBase64 (a :: b :: c :: d :: (gs.flatten ++ tail)) = true
    rcases hflat : gs.flatten ++ tail with _ | ⟨e, restf⟩
    · rw [isValidBase64_quad, ha, hb, hc, hd]
      simp
    · rw [hflat] at ihv
      rw [isValidBase64_cons, ha, hb, hc, hd, ihv]
      rfl

/-- The executable checker decides the structural base64 language. -/
theorem isValidBase64_iff (s : List Char) :
    isValidBase64 s = true ↔ CanonicalBase64 s :=
  ⟨fun h => isValidBase64_sound s.length s le_rfl h,
   fun ⟨gs, tail, hs, hgs, htail⟩ => hs ▸ isValidBase64_complete gs tail hgs htail⟩

/-- C5: `handleBase64Input` throws exactly on the strings outside the
canonical base64 language (groups of four alphabet characters with an
optional correctly padded final group), the empty string is accepted and
decodes to the empty result, and every accepted input is returned
decoded. -/
theorem handleBase64Input_spec (s : List Char) :
    ((∃ e, handleBase64Input s = .error e) ↔ ¬ CanonicalBase64 s) ∧
    (CanonicalBase64 s → handleBase64Input s = .ok (b64decode s)) ∧
    handleBase64Input [] = .ok [] := by
  refine ⟨⟨?_, ?_⟩, ?_, rfl⟩
  · rintro ⟨e, he⟩ hcan
    have hv := (isValidBase64_iff s).mpr hcan
    simp [handleBase64Input, hv] at he
  · intro hncan
    have hv : isValidBase64 s = false := by
      cases hvb : isValidBase64 s
      · rfl
      · exact absurd ((isValidBase64_iff s).mp hvb) hncan
    exact ⟨"Input is not valid base64 encoded", by simp [handleBase64Input, hv]⟩
  · intro hcan
    simp [handleBase64Input, (isValidBase64_iff s).mpr hcan]

/-- C5 witness: the padded string `QQ==` is accepted and decoded (to the single
byte 65). -/
theorem handleBase64Input_spec_witness :
    handleBase64Input "QQ==".toList = .ok (b64decode "QQ==".toList) :=
  (handleBase64Input_spec ("QQ==".toList)).2.1
    ⟨[], ['Q', 'Q', '=', '='], by decide, by simp,
     Or.inr (Or.inl ⟨'Q', 'Q', rfl, by decide, by decide⟩)⟩

/-- A package-name character is not JavaScript whitespace (the classes
`[a-zA-Z0-9_.]` and `\s` are disjoint). -/
theorem packageNameChar_not_ws {c : Char} (h : isPackageNameChar c = true) :
    isJsWhitespace c = false := by
  by_contra hws
  rw [Bool.not_eq_false] at hws
  have hcases : c = ' ' ∨ c = '\t' ∨ c = '\n' ∨ c = '\x0d' ∨ c = '\x0b' ∨ c = '\x0c' := by
    simpa [isJsWhitespace, or_assoc] using hws
  rcases hcases with h1 | h1 | h1 | h1 | h1 | h1 <;> subst h1 <;>
    exact absurd h (by decide)

/-- `takeWhile` over a block that satisfies the predicate, stopped by a
character that does not, returns exactly the block. -/
theorem takeWhile_all_append (p : Char → Bool) :
    ∀ (l : List Char), (∀ c ∈ l, p c = true) → ∀ (c : Char), p c = false →
      ∀ r, (l ++ c :: r).takeWhile p = l := by
  intro l
  induction l with
  | nil =>
    intro _ c hc r
    simp [List.takeWhile_cons, hc]
  | cons a t ih =>
    intro hall c hc r
    have ha := hall a (by simp)
    simp [List.takeWhile_cons, ha,
      ih (fun x hx => hall x (List.mem_cons_of_mem _ hx)) c hc r]

/-- `matchPackageAt` on a string that starts with a well-formed package
declaration captures exactly the package name. -/
theorem matchPackageAt_shape (pkg rest : List Char) (hne : pkg ≠ [])
    (hp : ∀ c ∈ pkg, isPackageNameChar c = true) :
    matchPackageAt (packageLit ++ ' ' :: pkg ++ ';' :: rest) = some pkg := by
  obtain ⟨q, pkg2, rfl⟩ : ∃ q pkg2, pkg = q :: pkg2 := by
    rcases pkg with _ | ⟨q, pkg2⟩
    · exact absurd rfl hne
    · exact ⟨q, pkg2, rfl⟩
  have hpre : packageLit.isPrefixOf (packageLit ++ ' ' :: (q :: pkg2) ++ ';' :: rest) = true := by
    rw [ List.isPrefixOf_iff_prefix]
    exact List.prefix_append _ _
  have hdrop :
      (packageLit ++ ' ' :: (q :: pkg2) ++ ';' :: rest).drop packageLit.length =
        ' ' :: (q :: pkg2) ++ ';' :: rest :=
    List.drop_left _ _
  have hq : isJsWhitespace q = false := packageNameChar_not_ws (hp q (by simp))
  have hsp : isJsWhitespace ' ' = true := by decide
  have hws :
      ((' ' :: (q :: pkg2) ++ ';' :: rest).takeWhile isJsWhitespace) = [' '] := by
    simp [List.takeWhile_cons, hsp, hq]
  have hname :
      (((q :: pkg2) ++ ';' :: rest).takeWhile isPackageNameChar) = q :: pkg2 :=
    takeWhile_all_append isPackageNameChar (q :: pkg2) hp ';' (by decide) rest
  have hdropname :
      ((q :: pkg2) ++ ';' :: rest).drop (q :: pkg2).length = ';' :: rest :=
    List.drop_left _ _
  simp only [matchPackageAt, hpre, if_true, hdrop, hws, List.length_cons,
    List.length_nil, Nat.zero_add]
  simp only [List.drop_one]
  have htail : (' ' :: q :: pkg2 ++ ';' :: rest).tail = q :: pkg2 ++ ';' :: rest := rfl
  rw [htail, hname, hdropname]
  simp

/-- A successful `matchPackageAt` means the literal `package` heads the
string. -/
theorem matchPackageAt_package_heads {s name : List Char}
    (h : matchPackageAt s = some name) : packageLit <+: s := by
  by_cases hpre : packageLit.isPrefixOf s = true
  · exact ( List.isPrefixOf_iff_prefix).mp hpre
  · exfalso
    simp [matchPackageAt, hpre] at h

/-- When the literal `package` occurs nowhere in the string, the scanner finds
no package declaration. -/
theorem findPackageFrom_eq_none :
    ∀ (s : List Char), ¬ packageLit <:+: s → ∀ b, findPackageFrom s b = none := by
  intro s
  induction s with
  | nil =>
    intro _ b
    cases b <;> rfl
  | cons c t ih =>
    intro hinf b
    have hm : matchPackageAt (c :: t) = none := by
      cases hmm : matchPackageAt (c :: t) with
      | none => rfl
      | some name =>
        exact absurd (matchPackageAt_package_heads hmm).isInfix hinf
    have ht : ¬ packageLit <:+: t := by
      intro hh
      exact hinf (hh.trans (List.suffix_cons c t).isInfix)
    cases b <;> simp [findPackageFrom, hm, ih ht]

/-- A match at the very start of the string is what the scanner returns. -/
theorem findPackageName_of_matchPackageAt {s name : List Char}
    (h : matchPackageAt s = some name) : findPackageName s = some name := by
  rcases s with _ | ⟨c, t⟩
  · have hnil : matchPackageAt ([] : List Char) = none := rfl
    rw [hnil] at h
    simp at h
  · simp [findPackageName, findPackageFrom, h]

/-- C6: laying out a Java file whose decoded content opens with a package
declaration `package X.Y.Z;` places it at
`tempDir/<X/Y/Z>/<filename>` (each dot of the declaration becoming one more
directory level, created recursively), while a content in which the word
`package` never occurs is placed flat at `tempDir/<filename>`. -/
theorem handleFileOperations_java_placement (tempDir filename pkg rest : List Char)
    (hne : pkg ≠ []) (hp : ∀ c ∈ pkg, isPackageNameChar c = true)
    (hfn : filename ≠ []) :
    javaFilePath tempDir (packageLit ++ ' ' :: pkg ++ ';' :: rest) filename =
      tempDir ++ '/' :: packagePathOf pkg ++ '/' :: filename ∧
    (∀ x y : List Char, packagePathOf (x ++ '.' :: y) =
      packagePathOf x ++ '/' :: packagePathOf y) ∧
    (∀ content : List Char, ¬ packageLit <:+: content →
      javaFilePath tempDir content filename = tempDir ++ '/' :: filename) := by
  refine ⟨?_, ?_, ?_⟩
  · have hfind := findPackageName_of_matchPackageAt
      (matchPackageAt_shape pkg rest hne hp)
    have hpkg : packagePathOf pkg ≠ [] := by
      intro hcontra
      exact hne (List.map_eq_nil_iff.mp hcontra)
    simp only [javaFilePath]
    rw [hfind]
    simp only [pathJoin, if_neg hpkg, if_neg hfn, List.append_assoc,
      List.cons_append]
  · intro x y
    simp [packagePathOf]
  · intro content hinf
    simp only [javaFilePath, findPackageName, findPackageFrom_eq_none content hinf,
      pathJoin, if_neg hfn]

/-- C6 witness: a file declaring `package com.jury1;` is placed under the
nested `com/jury1` directory. -/
theorem handleFileOperations_java_placement_witness :
    javaFilePath "/tmp/jury1/w".toList
      (packageLit ++ ' ' :: "com.jury1".toList ++ ';' :: "\nclass A".toList)
      "Main.java".toList = "/tmp/jury1/w/com/jury1/Main.java".toList :=
  (handleFileOperations_java_placement "/tmp/jury1/w".toList "Main.java".toList
    "com.jury1".toList "\nclass A".toList (by decide) (by decide) (by decide)).1.trans
    (by decide)

/-- Dropping as many characters as `takeWhile` keeps yields `dropWhile`. -/
theorem drop_length_takeWhile (p : Char → Bool) :
    ∀ l : List Char, l.drop (l.takeWhile p).length = l.dropWhile p := by
  intro l
  induction l with
  | nil => rfl
  | cons a t ih =>
    by_cases ha : p a
    · simp [List.takeWhile_cons, List.dropWhile_cons, ha, ih]
    · simp [List.takeWhile_cons, List.dropWhile_cons, ha]

/-- `takeWhile` runs through a block that satisfies the predicate. -/
theorem takeWhile_all_prepend (p : Char → Bool) :
    ∀ (w : List Char), (∀ c ∈ w, p c = true) →
      ∀ v, (w ++ v).takeWhile p = w ++ v.takeWhile p := by
  intro w
  induction w with
  | nil => intro _ v; rfl
  | cons a t ih =>
    intro hall v
    have ha := hall a (by simp)
    simp [List.takeWhile_cons, ha, ih (fun x hx => hall x (List.mem_cons_of_mem _ hx)) v]

/-- Soundness of the head matcher for one blacklist pattern: a match means
the string decomposes into the leading literal, a whitespace gap (non-empty
when the pattern uses `\s+`) and the trailing literal. -/
theorem matchGapAt_sound {lead trail s : List Char} {needOne : Bool}
    (h : matchGapAt lead needOne trail s = true) :
    ∃ w v, s = lead ++ w ++ trail ++ v ∧ (∀ c ∈ w, isJsWhitespace c = true) ∧
      (needOne = true → w ≠ []) := by
  by_cases hpre : lead.isPrefixOf s = true
  · obtain ⟨r, rfl⟩ := ( List.isPrefixOf_iff_prefix).mp hpre
    rw [matchGapAt, if_pos hpre, List.drop_left] at h
    simp only [Bool.and_eq_true, Bool.or_eq_true, Bool.not_eq_true',
      decide_eq_true_eq] at h
    obtain ⟨hone, htrail⟩ := h
    obtain ⟨v, hv⟩ := ( List.isPrefixOf_iff_prefix).mp htrail
    refine ⟨r.takeWhile isJsWhitespace, v, ?_, ?_, ?_⟩
    · rw [List.append_assoc, List.append_assoc]
      congr 1
      rw [hv, drop_length_takeWhile]
      exact (List.takeWhile_append_dropWhile ..).symm
    · intro c hc
      exact List.mem_takeWhile_imp hc
    · intro hno hwnil
      rcases hone with hone | hone
      · rw [hone] at hno
        exact Bool.noConfusion hno
      · rw [hwnil] at hone
        simp at hone
  · rw [matchGapAt, if_neg hpre] at h
    exact Bool.noConfusion h

/-- Soundness of the pattern scanner: a reported match yields an occurrence
of the pattern somewhere in the string. -/
theorem scanGap_sound {lead trail : List Char} {needOne : Bool} :
    ∀ {s : List Char}, scanGap lead needOne trail s = true →
      ∃ u w v, s = u ++ lead ++ w ++ trail ++ v ∧
        (∀ c ∈ w, isJsWhitespace c = true) ∧ (needOne = true → w ≠ []) := by
  intro s
  induction s with
  | nil =>
    intro h
    obtain ⟨w, v, hs, hw, hone⟩ := matchGapAt_sound h
    exact ⟨[], w, v, hs, hw, hone⟩
  | cons c t ih =>
    intro h
    simp only [scanGap, Bool.or_eq_true] at h
    rcases h with h | h
    · obtain ⟨w, v, hs, hw, hone⟩ := matchGapAt_sound h
      exact ⟨[], w, v, by simpa using hs, hw, hone⟩
    · obtain ⟨u, w, v, hs, hw, hone⟩ := ih h
      exact ⟨c :: u, w, v, by simp [hs], hw, hone⟩

/-- A head match propagates into the scanner. -/
theorem scanGap_of_matchGapAt {lead trail s : List Char} {needOne : Bool}
    (h : matchGapAt lead needOne trail s = true) :
    scanGap lead needOne trail s = true := by
  rcases s with _ | ⟨c, t⟩
  · exact h
  · simp [scanGap, h]

/-- Completeness of the head matcher for a pattern whose trailing literal is
empty or starts with a non-whitespace character (true of every blacklist
pattern of both sanitizers). -/
theorem matchGapAt_complete (lead trail : List Char) (needOne : Bool)
    (htr : trail = [] ∨ ∃ c t, trail = c :: t ∧ isJsWhitespace c = false)
    (w v : List Char) (hw : ∀ c ∈ w, isJsWhitespace c = true)
    (hone : needOne = true → w ≠ []) :
    matchGapAt lead needOne trail (lead ++ w ++ trail ++ v) = true := by
  have hpre : lead.isPrefixOf (lead ++ (w ++ (trail ++ v))) = true := by
    rw [ List.isPrefixOf_iff_prefix]
    exact List.prefix_append _ _
  rw [List.append_assoc, List.append_assoc]
  simp only [matchGapAt, hpre, if_true, List.drop_left]
  have honeOk : ∀ wsLen : Nat, w.length ≤ wsLen →
      (!needOne || decide (0 < wsLen)) = true := by
    intro wsLen hle
    cases needOne
    · rfl
    · have hwne := hone rfl
      have : 0 < w.length := List.length_pos.mpr hwne
      simp only [Bool.not_true, Bool.false_or, decide_eq_true_eq]
      omega
  rcases htr with rfl | ⟨c, t, rfl, hc⟩
  · have htw : ((w ++ ([] ++ v)).takeWhile isJsWhitespace) =
        w ++ (v.takeWhile isJsWhitespace) := by
      rw [List.nil_append]
      exact takeWhile_all_prepend isJsWhitespace w hw v
    rw [htw]
    simp only [Bool.and_eq_true]
    refine ⟨honeOk _ (by simp), ?_⟩
    rw [ List.isPrefixOf_iff_prefix]
    exact List.nil_prefix
  · have hassoc : w ++ ((c :: t) ++ v) = w ++ c :: (t ++ v) := by simp
    rw [hassoc]
    have htw : ((w ++ c :: (t ++ v)).takeWhile isJsWhitespace) = w :=
      takeWhile_all_append isJsWhitespace w hw c hc (t ++ v)
    rw [htw]
    simp only [Bool.and_eq_true]
    refine ⟨honeOk _ le_rfl, ?_⟩
    rw [List.drop_left, List.isPrefixOf_iff_prefix]
    exact ⟨v, by simp⟩

/-- Completeness of the pattern scanner: an occurrence anywhere in the string
is found (for patterns whose trailing literal does not start with
whitespace). -/
theorem scanGap_complete (lead trail : List Char) (needOne : Bool)
    (htr : trail = [] ∨ ∃ c t, trail = c :: t ∧ isJsWhitespace c = false) :
    ∀ (u w v : List Char), (∀ c ∈ w, isJsWhitespace c = true) →
      (needOne = true → w ≠ []) →
      scanGap lead needOne trail (u ++ lead ++ w ++ trail ++ v) = true := by
  intro u
  induction u with
  | nil =>
    intro w v hw hone
    exact scanGap_of_matchGapAt
      (by simpa using matchGapAt_complete lead trail needOne htr w v hw hone)
  | cons a u2 ih =>
    intro w v hw hone
    have : (a :: u2) ++ lead ++ w ++ trail ++ v =
        a :: (u2 ++ lead ++ w ++ trail ++ v) := by simp
    rw [this, scanGap]
    simp only [Bool.or_eq_true]
    exact Or.inr (ih w v hw hone)

/-- C10: both sanitizers throw exactly when some pattern of their fixed
blacklist matches the code (`scanGap` being the regex matcher, with
`scanGap_sound` and `scanGap_complete` relating it to pattern occurrences),
and otherwise return the input completely unchanged — the sanitizer never
rewrites source code. -/
theorem sanitizer_spec (code : List Char) :
    ((∃ e, pythonSanitize code = .error e) ↔
      ∃ p ∈ pythonBlacklist, scanGap p.lead p.needOne p.trail code = true) ∧
    (∀ r, pythonSanitize code = .ok r → r = code) ∧
    ((∃ e, javaSanitize code = .error e) ↔
      ∃ p ∈ javaBlacklist, scanGap p.lead p.needOne p.trail code = true) ∧
    (∀ r, javaSanitize code = .ok r → r = code) := by
  have key : ∀ (bl : List BlacklistPattern) (msg : String),
      ((∃ e, sanitize bl msg code = .error e) ↔
        ∃ p ∈ bl, scanGap p.lead p.needOne p.trail code = true) ∧
      (∀ r, sanitize bl msg code = .ok r → r = code) := by
    intro bl msg
    by_cases hany : bl.any (fun p => scanGap p.lead p.needOne p.trail code) = true
    · refine ⟨⟨fun _ => ?_, fun _ => ?_⟩, fun r hr => ?_⟩
      · exact List.any_eq_true.mp hany
      · exact ⟨msg, by simp [sanitize, isSafe, hany]⟩
      · simp [sanitize, isSafe, hany] at hr
    · refine ⟨⟨fun he => ?_, fun hex => ?_⟩, fun r hr => ?_⟩
      · obtain ⟨e, he⟩ := he
        simp [sanitize, isSafe, hany] at he
      · exact absurd (List.any_eq_true.mpr hex) hany
      · have : sanitize bl msg code = .ok code := by simp [sanitize, isSafe, hany]
        rw [this] at hr
        exact (Except.ok.injEq .. ▸ hr).symm
  exact ⟨(key pythonBlacklist _).1, (key pythonBlacklist _).2,
    (key javaBlacklist _).1, (key javaBlacklist _).2⟩

/-- C10 witness: `import os` trips the Python blacklist and `x = 1` does
not. -/
theorem sanitizer_spec_witness :
    ∃ e, pythonSanitize "import os".toList = .error e :=
  (sanitizer_spec ("import os".toList)).1.mpr
    ⟨⟨"import".toList, true, "os".toList⟩, by decide, by decide⟩

end Jury1
